import Mathlib

/-!
# Windows-Touch: argument extraction, path dispatch and path actions

A shallow embedding of `cmd/root.go`, `cmd/util/util.go` and `touch.go`.

* Standard output is a list of the texts written, oldest first.
* A Go `error` is `Option String`: `none` is `nil`, `some m` is an error whose
  message is `m`.
* Calls into the Go standard library and the operating system are fields of
  `Sys`, acting on an abstract world `W`.
-/

namespace Touch

/-! ## cmd/root.go : flags and the registry -/

/-- Go `type Flag struct`. -/
structure Flag where
  Name : String
  Shorthand : String
  Usage : String
  Value : String
deriving DecidableEq, Repr

/-- Go `type CMD struct`. -/
structure CMD where
  flags : List Flag
deriving DecidableEq, Repr

/-- Go `(*CMD).AddFlag`. -/
def CMD.AddFlag (c : CMD) (Name Shorthand Usage Value : String) : CMD :=
  { flags := c.flags ++ [{ Name := Name, Shorthand := Shorthand, Usage := Usage, Value := Value }] }

/-- The loop of `isFlag` over the registry: the first flag whose Name or
Shorthand is `arg`, or `(false, Flag{})`. -/
def isFlagLoop (arg : String) : List Flag → Bool × Flag
  | [] => (false, { Name := "", Shorthand := "", Usage := "", Value := "" })
  | v :: tl => if v.Name = arg ∨ v.Shorthand = arg then (true, v) else isFlagLoop arg tl

/-- Go `(*CMD).isFlag`. -/
def CMD.isFlag (c : CMD) (arg : String) : Bool × Flag :=
  isFlagLoop arg c.flags

/-- The flag `extract` appends for `-t` / `--timestamp` with value `v`. -/
def timestampFlag (v : String) : Flag :=
  { Name := "--timestamp", Shorthand := "-t",
    Usage := "Set the creation timestamp for the file (YYYY-MM-DD HH:MM:SS)", Value := v }

/-- The flag `extract` appends for `-p` / `--permissions` with value `v`. -/
def permissionsFlag (v : String) : Flag :=
  { Name := "--permissions", Shorthand := "-p",
    Usage := "Set file permissions (USER or ADMIN)", Value := v }

/-- What `extract` has produced: the two returned slices and the text printed. -/
structure Extracted where
  rest : List String
  flags : List Flag
  out : List String
deriving DecidableEq, Repr

/-- The `for i := 0; i < len(args); i++` loop of `extract`, on the arguments
from index `i` on.  Taking two tokens at once is the `i++` inside the body. -/
def extractLoop (c : CMD) : List String → Extracted → Extracted
  | [], acc => acc
  | v :: tl, acc =>
    if v = "-t" ∨ v = "--timestamp" then
      match tl with
      | x :: tl2 => extractLoop c tl2 { acc with flags := acc.flags ++ [timestampFlag x] }
      | [] => { acc with out := acc.out ++ ["Error: Missing value for -t / --timestamp flag\n"] }
    else if v = "-p" ∨ v = "--permissions" then
      match tl with
      | x :: tl2 => extractLoop c tl2 { acc with flags := acc.flags ++ [permissionsFlag x] }
      | [] => { acc with out := acc.out ++ ["Error: Missing value for -p / --permissions flag\n"] }
    else if (c.isFlag v).1 then
      extractLoop c tl { acc with flags := acc.flags ++ [(c.isFlag v).2] }
    else
      extractLoop c tl { acc with rest := acc.rest ++ [v] }

/-- Go `(*CMD).extract`. -/
def CMD.extract (c : CMD) (args : List String) : Extracted :=
  extractLoop c args { rest := [], flags := [], out := [] }

/-- The registry built in `main` (touch.go). -/
def mainCMD : CMD :=
  ((((((({ flags := [] } : CMD).AddFlag "--recursive" "-r" "Recursively create directories" "").AddFlag
    "--force" "-f" "Overwrite existing files" "").AddFlag
    "--directory" "-d" "Create directories instead of files" "").AddFlag
    "--timestamp" "-t" "Set the creation timestamp for the file (YYYY-MM-DD HH:MM:SS)" "").AddFlag
    "--permissions" "-p" "Set file permissions (USER or ADMIN)" "").AddFlag
    "--update" "-u" "Update timestamps and permissions without creating new files" "").AddFlag
    "--help" "-h" "Show help" ""

/-! ## Program state and the interface of package `util` -/

/-- Program state: the outside world (the filesystem) and standard output. -/
structure St (W : Type) where
  world : W
  out : List String
deriving DecidableEq

/-- Write `text` to standard output. -/
def St.print {W : Type} (s : St W) (text : String) : St W :=
  { s with out := s.out ++ [text] }

/-- What package `cmd` uses of package `util`: the text of `Intro()` and the
five mutating methods of `util.Path`, each taking the path (and the value
argument, if any) and returning a Go `error`. -/
structure Util (W : Type) where
  Intro : String
  Create : String → St W → Option String × St W
  ForceCreate : String → St W → Option String × St W
  CreateDir : String → St W → Option String × St W
  ModifyTimestamps : String → String → St W → Option String × St W
  ModifyPermissions : String → String → St W → Option String × St W

/-- How a call of `processPath`, `process` or `Execute` ends: it returns an
`error` (possibly nil), or the Go runtime panics. -/
inductive Outcome where
  | returned (err : Option String)
  | panicked (msg : String)
deriving DecidableEq, Repr

/-- Run `k` if the step before returned nil; otherwise `return err` at once
(the `if err := ...; err != nil { return err }` pattern). -/
def andThen {W : Type} (r : Outcome × St W) (k : St W → Outcome × St W) : Outcome × St W :=
  match r with
  | (Outcome.returned none, st) => k st
  | other => other

/-- The result of a `util.Path` method as an outcome. -/
def call {W : Type} (r : Option String × St W) : Outcome × St W :=
  (Outcome.returned r.1, r.2)

/-! ## cmd/root.go : processPath, process, Execute -/

/-- The value type of the `options` map in `processPath`. -/
structure OptionEntry where
  Index : Nat
  Active : Bool
deriving DecidableEq, Repr

/-- The `options` map of `processPath`; a missing key reads as the zero value. -/
abbrev Options := String → OptionEntry

/-- The empty map `map[string]struct{...}{}`. -/
def Options.empty : Options := fun _ => { Index := 0, Active := false }

/-- Map assignment `options[key] = e`. -/
def Options.set (o : Options) (key : String) (e : OptionEntry) : Options :=
  fun k => if k = key then e else o k

/-- Step 1 of `processPath`: the `for i, v := range flags` loop with its
`switch v.Name`, from index `i` on; returns the map and the text printed. -/
def optionsLoop : List Flag → Nat → Options × List String → Options × List String
  | [], _, acc => acc
  | v :: tl, i, (o, out) =>
    if v.Name = "--directory" ∨ v.Name = "-d" then
      optionsLoop tl (i + 1) (o.set "directory" { Index := i, Active := true }, out)
    else if v.Name = "--force" ∨ v.Name = "-f" then
      optionsLoop tl (i + 1) (o.set "force" { Index := i, Active := true }, out)
    else if v.Name = "--timestamp" ∨ v.Name = "-t" then
      optionsLoop tl (i + 1) (o.set "timestamp" { Index := i, Active := true }, out)
    else if v.Name = "--permissions" ∨ v.Name = "-p" then
      optionsLoop tl (i + 1) (o.set "permissions" { Index := i, Active := true }, out)
    else if v.Name = "--update" ∨ v.Name = "-u" then
      optionsLoop tl (i + 1) (o.set "update" { Index := i, Active := true }, out)
    else if v.Name = "--help" ∨ v.Name = "-h" then
      optionsLoop tl (i + 1) (o.set "help" { Index := i, Active := true }, out)
    else
      optionsLoop tl (i + 1) (o, out ++ ["Unknown flag: " ++ v.Name ++ "\n"])

/-- The options map `processPath` builds from `flags`. -/
def parseOptions (flags : List Flag) : Options := (optionsLoop flags 0 (Options.empty, [])).1

/-- The `Unknown flag: ...` lines `processPath` prints for `flags`. -/
def unknownFlagLines (flags : List Flag) : List String := (optionsLoop flags 0 (Options.empty, [])).2

/-- The slice read `flags[i].Value` followed by `k`; an index out of range is
a runtime panic. -/
def withFlagValue {W : Type} (flags : List Flag) (i : Nat) (st : St W)
    (k : String → Outcome × St W) : Outcome × St W :=
  match flags[i]? with
  | some f => k f.Value
  | none => (Outcome.panicked "index out of range", st)

/-- Go `(*CMD).processPath`. -/
def processPath {W : Type} (u : Util W) (path : String) (flags : List Flag) (st : St W) :
    Outcome × St W :=
  let options := parseOptions flags
  let st1 : St W := { st with out := st.out ++ unknownFlagLines flags }
  if (options "directory").Active then
    call (u.CreateDir path st1)
  else
    andThen
      (if !(options "update").Active then
        (if (options "force").Active then call (u.ForceCreate path st1)
         else call (u.Create path st1))
       else (Outcome.returned none, st1))
      fun st2 =>
    andThen
      (if (options "timestamp").Active then
        withFlagValue flags (options "timestamp").Index st2 fun v =>
          call (u.ModifyTimestamps path v st2)
       else (Outcome.returned none, st2))
      fun st3 =>
    if (options "permissions").Active then
      withFlagValue flags (options "permissions").Index st3 fun v =>
        call (u.ModifyPermissions path v st3)
    else (Outcome.returned none, st3)

/-- Go `(*CMD).process`: the `for _, path := range rest` loop. -/
def process {W : Type} (u : Util W) : List String → List Flag → St W → Outcome × St W
  | [], _, st => (Outcome.returned none, st)
  | path :: tl, flags, st => andThen (processPath u path flags st) fun st1 => process u tl flags st1

/-- The help test of `Execute`: some extracted flag has Name `--help` or
Shorthand `-h`. -/
def hasHelp : List Flag → Bool
  | [] => false
  | v :: tl => if v.Name = "--help" ∨ v.Shorthand = "-h" then true else hasHelp tl

/-- Go `(*CMD).Execute`, with `osArgs` for `os.Args` (program name first). -/
def CMD.Execute {W : Type} (c : CMD) (u : Util W) (osArgs : List String) (st : St W) :
    Outcome × St W :=
  match osArgs with
  | [] => (Outcome.panicked "slice bounds out of range [1:0]", st)
  | [_] => (Outcome.returned none, st.print (u.Intro ++ "\n"))
  | _ :: args =>
    let e := c.extract args
    let st1 : St W := { st with out := st.out ++ e.out }
    if hasHelp e.flags then
      (Outcome.returned none, st1.print (u.Intro ++ "\n"))
    else if e.rest.length = 0 then
      (Outcome.returned none, st1.print "No file or directory specified.\n")
    else
      process u e.rest e.flags st1

/-! ## A recording implementation of the `util` interface -/

/-- One call of a mutating `util.Path` method. -/
inductive Call where
  | Create (path : String)
  | ForceCreate (path : String)
  | CreateDir (path : String)
  | ModifyTimestamps (path value : String)
  | ModifyPermissions (path level : String)
deriving DecidableEq, Repr

/-- Record call `c` in the world; it fails with message `"failed"` exactly
when `fails c`. -/
def record (fails : Call → Bool) (c : Call) (st : St (List Call)) : Option String × St (List Call) :=
  (if fails c then some "failed" else none, { st with world := st.world ++ [c] })

/-- An implementation of the `util` interface whose world is the list of the
calls made so far. -/
def recorder (fails : Call → Bool) : Util (List Call) where
  Intro := "touch [flags] [file(s)]"
  Create := fun p => record fails (Call.Create p)
  ForceCreate := fun p => record fails (Call.ForceCreate p)
  CreateDir := fun p => record fails (Call.CreateDir p)
  ModifyTimestamps := fun p v => record fails (Call.ModifyTimestamps p v)
  ModifyPermissions := fun p v => record fails (Call.ModifyPermissions p v)

/-! ## The Go standard library and the operating system, as used by `util` -/

/-- A `time.Time` as its accessors show it (`Year()`, `Month()`, ...,
`Nanosecond()`, `Location()`). -/
structure Time where
  year : Int
  month : Nat
  day : Nat
  hour : Nat
  minute : Nat
  second : Nat
  nanosecond : Nat
  location : String
deriving DecidableEq, Repr

/-- What `util` reads of an `os.FileInfo`. -/
structure FileInfo where
  isDir : Bool
  modTime : Time
deriving DecidableEq, Repr

/-- The library and system calls `util` makes, over a world `W`.  A call that
can fail returns its Go `error` (and the world it leaves behind). -/
structure Sys (W : Type) where
  /-- Go `banner.Inline` of moul.io/banner -/
  bannerInline : String → String
  /-- Go `os.IsPathSeparator` -/
  isPathSeparator : Char → Bool
  /-- Go `filepath.Dir` -/
  dir : String → String
  /-- Go `runtime.GOOS` -/
  goos : String
  /-- Go `time.Time.String`, used by the `%v` verb -/
  timeString : Time → String
  /-- Go `os.Stat` -/
  stat : W → String → Except String FileInfo
  /-- Go `os.MkdirAll path perm` -/
  mkdirAll : W → String → Nat → Option String × W
  /-- Go `os.WriteFile path data perm` -/
  writeFile : W → String → String → Nat → Option String × W
  /-- Go `os.RemoveAll` -/
  removeAll : W → String → Option String × W
  /-- Go `os.OpenFile path os.O_RDWR 0`: the error, if it cannot be opened -/
  openFile : W → String → Option String
  /-- Go `syscall.SetFileTime` on the opened file, all three times set to the argument -/
  setFileTime : W → String → Time → Option String × W
  /-- Go `os.Chmod` -/
  chmod : W → String → Nat → Option String × W
  /-- Go `exec.Command(name, args...).CombinedOutput()`: output and error -/
  combinedOutput : W → String → List String → (String × Option String) × W

/-! ### `time.Parse` on the layouts of `ModifyTimestamps`, and `time.Date` -/

/-- The elements of the layouts used: `2006`, `01`, `02`, `15`, `04`, `05`
and literal text. -/
inductive Chunk where
  | longYear
  | zeroMonth
  | zeroDay
  | hour
  | zeroMinute
  | zeroSecond
  | lit (c : Char)
deriving DecidableEq, Repr

/-- The element sequence of each layout in `formats`. -/
def layoutChunks (layout : String) : Option (List Chunk) :=
  if layout = "2006-01-02 15:04:05" then
    some [Chunk.longYear, Chunk.lit '-', Chunk.zeroMonth, Chunk.lit '-', Chunk.zeroDay, Chunk.lit ' ',
      Chunk.hour, Chunk.lit ':', Chunk.zeroMinute, Chunk.lit ':', Chunk.zeroSecond]
  else if layout = "02.01.2006 15:04" then
    some [Chunk.zeroDay, Chunk.lit '.', Chunk.zeroMonth, Chunk.lit '.', Chunk.longYear, Chunk.lit ' ',
      Chunk.hour, Chunk.lit ':', Chunk.zeroMinute]
  else if layout = "02-01-2006 15:04" then
    some [Chunk.zeroDay, Chunk.lit '-', Chunk.zeroMonth, Chunk.lit '-', Chunk.longYear, Chunk.lit ' ',
      Chunk.hour, Chunk.lit ':', Chunk.zeroMinute]
  else if layout = "2006-01-02" then
    some [Chunk.longYear, Chunk.lit '-', Chunk.zeroMonth, Chunk.lit '-', Chunk.zeroDay]
  else if layout = "02.01.2006" then
    some [Chunk.zeroDay, Chunk.lit '.', Chunk.zeroMonth, Chunk.lit '.', Chunk.longYear]
  else if layout = "02-01-2006" then
    some [Chunk.zeroDay, Chunk.lit '-', Chunk.zeroMonth, Chunk.lit '-', Chunk.longYear]
  else if layout = "15:04" then
    some [Chunk.hour, Chunk.lit ':', Chunk.zeroMinute]
  else if layout = "15-04" then
    some [Chunk.hour, Chunk.lit '-', Chunk.zeroMinute]
  else none

/-- The fields `time.Parse` collects; `month` and `day` start unset. -/
structure Fields where
  year : Nat
  month : Option Nat
  day : Option Nat
  hour : Nat
  minute : Nat
  second : Nat
  nanosecond : Nat
deriving DecidableEq, Repr

/-- The fields before parsing starts. -/
def Fields.init : Fields :=
  { year := 0, month := none, day := none, hour := 0, minute := 0, second := 0, nanosecond := 0 }

/-- Go `isDigit` of package time. -/
def isDigit (c : Char) : Bool := decide (48 ≤ c.toNat ∧ c.toNat ≤ 57)

/-- The value of a decimal digit. -/
def digitVal (c : Char) : Nat := c.toNat - 48

/-- The number written by a list of decimal digits. -/
def digitsVal (ds : List Char) : Nat := ds.foldl (fun n c => n * 10 + digitVal c) 0

/-- Go `getnum` of package time: one or two digits (`fixed` forces two). -/
def getnum (s : List Char) (fixed : Bool) : Option (Nat × List Char) :=
  match s with
  | [] => none
  | a :: tl =>
    if isDigit a then
      match tl with
      | b :: tl2 =>
        if isDigit b then some (digitVal a * 10 + digitVal b, tl2)
        else if fixed then none else some (digitVal a, tl)
      | [] => if fixed then none else some (digitVal a, [])
    else none

/-- Go `daysIn(month, year)` of package time. -/
def daysIn (month year : Nat) : Nat :=
  if month = 2 then
    (if year % 4 = 0 ∧ (year % 100 ≠ 0 ∨ year % 400 = 0) then 29 else 28)
  else if month = 4 ∨ month = 6 ∨ month = 9 ∨ month = 11 then 30
  else 31

/-- Parse one layout element off the front of the value, as `time.Parse` does. -/
def parseChunk (ch : Chunk) (f : Fields) (v : List Char) : Option (Fields × List Char) :=
  match ch with
  | Chunk.longYear =>
    match v with
    | a :: b :: c :: d :: tl =>
      if isDigit a ∧ isDigit b ∧ isDigit c ∧ isDigit d then
        some ({ f with year := digitsVal [a, b, c, d] }, tl)
      else none
    | _ => none
  | Chunk.zeroMonth =>
    match getnum v true with
    | some (m, tl) => if m = 0 ∨ 12 < m then none else some ({ f with month := some m }, tl)
    | none => none
  | Chunk.zeroDay =>
    match getnum v true with
    | some (d, tl) => some ({ f with day := some d }, tl)
    | none => none
  | Chunk.hour =>
    match getnum v false with
    | some (h, tl) => if 24 ≤ h then none else some ({ f with hour := h }, tl)
    | none => none
  | Chunk.zeroMinute =>
    match getnum v true with
    | some (m, tl) => if 60 ≤ m then none else some ({ f with minute := m }, tl)
    | none => none
  | Chunk.zeroSecond =>
    match getnum v true with
    | some (s, tl) =>
      if 60 ≤ s then none
      else
        -- a fractional second in the value that the layout does not have
        match tl with
        | p :: d :: tl2 =>
          if (p = '.' ∨ p = ',') ∧ isDigit d then
            let ds := (d :: tl2).takeWhile isDigit
            some ({ f with second := s,
                           nanosecond := digitsVal (ds.take 9) * 10 ^ (9 - (ds.take 9).length) },
                  (d :: tl2).dropWhile isDigit)
          else some ({ f with second := s }, tl)
        | _ => some ({ f with second := s }, tl)
    | none => none
  | Chunk.lit c =>
    if c = ' ' then
      -- `skip`: a space in the layout matches any run of spaces
      match v with
      | a :: _ => if a = ' ' then some (f, v.dropWhile (fun x => x = ' ')) else none
      | [] => some (f, [])
    else
      match v with
      | a :: tl => if a = c then some (f, tl) else none
      | [] => none

/-- Parse the elements of a layout in turn. -/
def parseChunks : List Chunk → Fields → List Char → Option (Fields × List Char)
  | [], f, v => some (f, v)
  | ch :: chs, f, v =>
    match parseChunk ch f v with
    | some (f1, v1) => parseChunks chs f1 v1
    | none => none

/-- Go `time.Parse(layout, value)` for the layouts of `formats`: `none` is a
parse error.  Text left over and a day outside the month are errors; fields
the layout lacks are zero (month and day: one); the location is UTC. -/
def timeParse (layout value : String) : Option Time :=
  match layoutChunks layout with
  | none => none
  | some chunks =>
    match parseChunks chunks Fields.init value.data with
    | some (f, []) =>
      if (f.day.getD 1) < 1 ∨ daysIn (f.month.getD 1) f.year < (f.day.getD 1) then none
      else some { year := f.year, month := f.month.getD 1, day := f.day.getD 1, hour := f.hour,
                  minute := f.minute, second := f.second, nanosecond := f.nanosecond,
                  location := "UTC" }
    | _ => none

/-- Go `time.Date`, for arguments inside their usual ranges (as they are at
both call sites in `ModifyTimestamps`, where they are read off valid times). -/
def timeDate (year : Int) (month day hour minute second nanosecond : Nat) (location : String) :
    Time :=
  { year := year, month := month, day := day, hour := hour, minute := minute, second := second,
    nanosecond := nanosecond, location := location }

/-! ## cmd/util/util.go -/

/-- Go `util.Banner`. -/
def Banner {W : Type} (sys : Sys W) (text : String) : String := sys.bannerInline text

/-- Go `util.Intro`. -/
def Intro {W : Type} (sys : Sys W) : String :=
  Banner sys "touch"
    ++ "\n\n"
    ++ "An advanced touch command with extra features and flexibility.\n\n"
    ++ "Supports custom timestamps, overwrite protection, and file attribute control.\n\n"
    ++ "https://github.com/pauwol/touch\n\n"
    ++ "Usage:\n"
    ++ "touch [flags] [file(s)]\n\n"
    ++ "Flags:\n"
    ++ "-f, --force\t\tOverwrite existing files\n"
    ++ "-d, --directory\t\tCreate directories instead of files\n"
    ++ "-t, --timestamp <timestamp>\tSet the creation timestamp for the file (YYYY-MM-DD HH:MM:SS)\n"
    ++ "-p, --permissions <level>\tSet file permissions (USER or ADMIN)\n"
    ++ "-u, --update\t\tUpdate timestamps and permissions without creating new files\n"
    ++ "-h, --help\t\tShows this help message\n"

/-- The loop of `filepath.Ext`, from the end of the path backwards: `acc` is
the text already passed. -/
def extLoop (isSep : Char → Bool) : List Char → List Char → String
  | [], _ => ""
  | c :: before, acc =>
    if isSep c then ""
    else if c = '.' then String.mk ('.' :: acc)
    else extLoop isSep before (c :: acc)

/-- Go `filepath.Ext`: the suffix from the last dot of the last path element. -/
def Ext {W : Type} (sys : Sys W) (path : String) : String :=
  extLoop sys.isPathSeparator path.data.reverse []

/-- Go `util.LooksLikeFile`. -/
def LooksLikeFile {W : Type} (sys : Sys W) (path : String) : Bool :=
  Ext sys path != ""

/-- Go `(*Path).Exists`. -/
def Exists {W : Type} (sys : Sys W) (path : String) (w : W) : Bool :=
  match sys.stat w path with
  | Except.ok _ => true
  | Except.error _ => false

/-- Go `(*Path).IsFile`. -/
def IsFile {W : Type} (sys : Sys W) (path : String) (w : W) : Bool :=
  match sys.stat w path with
  | Except.ok info => !info.isDir
  | Except.error _ => false

/-- Go `(*Path).IsDir`. -/
def IsDir {W : Type} (sys : Sys W) (path : String) (w : W) : Bool :=
  match sys.stat w path with
  | Except.ok info => info.isDir
  | Except.error _ => false

/-- Go `(*Path).Create`. -/
def Create {W : Type} (sys : Sys W) (path : String) (st : St W) : Option String × St W :=
  if Exists sys path st.world then
    (some "path already exists", st.print "Path already exists.\n")
  else if LooksLikeFile sys path then
    let parentDir := sys.dir path
    match sys.mkdirAll st.world parentDir 0o755 with
    | (some err, w1) => (some ("failed to create parent directory: " ++ err), { st with world := w1 })
    | (none, w1) =>
      match sys.writeFile w1 path "" 0o644 with
      | (some err, w2) => (some ("failed to create file: " ++ err), { st with world := w2 })
      | (none, w2) => (none, { st with world := w2 })
  else
    match sys.mkdirAll st.world path 0o755 with
    | (some err, w1) => (some ("failed to create directory: " ++ err), { st with world := w1 })
    | (none, w1) => (none, { st with world := w1 })

/-- Go `(*Path).ForceCreate`. -/
def ForceCreate {W : Type} (sys : Sys W) (path : String) (st : St W) : Option String × St W :=
  match (if Exists sys path st.world then sys.removeAll st.world path else (none, st.world)) with
  | (some err, w0) => (some ("failed to remove existing path: " ++ err), { st with world := w0 })
  | (none, w0) =>
    if LooksLikeFile sys path then
      let parentDir := sys.dir path
      match sys.mkdirAll w0 parentDir 0o755 with
      | (some err, w1) => (some ("failed to create parent directory: " ++ err), { st with world := w1 })
      | (none, w1) =>
        match sys.writeFile w1 path "" 0o644 with
        | (some err, w2) => (some ("failed to create file: " ++ err), { st with world := w2 })
        | (none, w2) => (none, { st with world := w2 })
    else
      match sys.mkdirAll w0 path 0o755 with
      | (some err, w1) => (some ("failed to create directory: " ++ err), { st with world := w1 })
      | (none, w1) => (none, { st with world := w1 })

/-- Go `(*Path).CreateDir`. -/
def CreateDir {W : Type} (sys : Sys W) (path : String) (st : St W) : Option String × St W :=
  if Exists sys path st.world then
    (some "path already exists", st.print "Path already exists.\n")
  else
    match sys.mkdirAll st.world path 0o755 with
    | (some err, w1) => (some ("failed to create directory: " ++ err), { st with world := w1 })
    | (none, w1) => (none, { st with world := w1 })

/-- The `formats` slice of `ModifyTimestamps`. -/
def formats : List String :=
  ["2006-01-02 15:04:05", "02.01.2006 15:04", "02-01-2006 15:04", "2006-01-02", "02.01.2006",
   "02-01-2006", "15:04", "15-04"]

/-- The `for _, format := range formats` loop of `ModifyTimestamps`: the
first layout that parses (`usedFormat`) with the time parsed, or `none` when
the last `parseErr` is not nil. -/
def parseLoop : List String → String → Option (String × Time)
  | [], _ => none
  | format :: tl, timestamp =>
    match timeParse format timestamp with
    | some parsedTime => some (format, parsedTime)
    | none => parseLoop tl timestamp

/-- The `switch usedFormat` of `ModifyTimestamps`: the new modification time. -/
def newModTime (usedFormat : String) (origTime parsedTime : Time) : Time :=
  if usedFormat = "15:04" ∨ usedFormat = "15-04" then
    timeDate origTime.year origTime.month origTime.day
      parsedTime.hour parsedTime.minute parsedTime.second parsedTime.nanosecond origTime.location
  else if usedFormat = "2006-01-02" ∨ usedFormat = "02.01.2006" ∨ usedFormat = "02-01-2006" then
    timeDate parsedTime.year parsedTime.month parsedTime.day
      origTime.hour origTime.minute origTime.second origTime.nanosecond origTime.location
  else parsedTime

/-- Go `updateTimestampsWindows`. -/
def updateTimestampsWindows {W : Type} (sys : Sys W) (path : String) (modTime : Time) (w : W) :
    Option String × W :=
  match sys.openFile w path with
  | some err => (some ("failed to open file: " ++ err), w)
  | none =>
    match sys.setFileTime w path modTime with
    | (some err, w1) => (some ("failed to set Windows file time: " ++ err), w1)
    | (none, w1) => (none, w1)

/-- The end of `ModifyTimestamps`: set the times of the path to `t` and report it. -/
def applyModTime {W : Type} (sys : Sys W) (path : String) (t : Time) (st : St W) :
    Option String × St W :=
  match updateTimestampsWindows sys path t st.world with
  | (some err, w1) => (some ("failed to update timestamps: " ++ err), { st with world := w1 })
  | (none, w1) =>
    (none, ({ st with world := w1 } : St W).print
      ("Updated timestamps for " ++ path ++ " to " ++ sys.timeString t ++ "\n"))

/-- Go `(*Path).ModifyTimestamps`. -/
def ModifyTimestamps {W : Type} (sys : Sys W) (path timestamp : String) (st : St W) :
    Option String × St W :=
  if !Exists sys path st.world then
    (some ("path does not exist: " ++ path), st)
  else
    match sys.stat st.world path with
    | Except.error err => (some ("failed to stat file: " ++ err), st)
    | Except.ok info =>
      let origTime := info.modTime
      match parseLoop formats timestamp with
      | none =>
        (some ("invalid timestamp format: tried formats [" ++ " ".intercalate formats ++ "]"), st)
      | some (usedFormat, parsedTime) =>
        applyModTime sys path (newModTime usedFormat origTime parsedTime) st

/-- Go `setWindowsPermissions`. -/
def setWindowsPermissions {W : Type} (sys : Sys W) (path level : String) (st : St W) :
    Option String × St W :=
  let run := fun (args : List String) =>
    match sys.combinedOutput st.world "icacls" args with
    | ((output, some err), w1) =>
      (some ("failed to set Windows permissions: " ++ err ++ "\n" ++ output),
        ({ st with world := w1 } : St W))
    | ((_, none), w1) =>
      (none, ({ st with world := w1 } : St W).print
        ("Updated permissions for: " ++ path ++ " (Level: " ++ level ++ ")\n"))
  if level = "USER" then
    run [path, "/grant", "Everyone:R", "/grant", "%USERNAME%:F"]
  else if level = "ADMIN" then
    run [path, "/grant", "%USERNAME%:F", "/inheritance:r"]
  else (some ("invalid permission level: " ++ level), st)

/-- Go `(*Path).ModifyPermissions`. -/
def ModifyPermissions {W : Type} (sys : Sys W) (path level : String) (st : St W) :
    Option String × St W :=
  if !Exists sys path st.world then
    (some ("path does not exist: " ++ path), st)
  else if sys.goos != "windows" then
    if level = "USER" ∨ level = "ADMIN" then
      match sys.chmod st.world path (if level = "USER" then 0o644 else 0o600) with
      | (some err, w1) => (some ("failed to change permissions: " ++ err), { st with world := w1 })
      | (none, w1) =>
        (none, ({ st with world := w1 } : St W).print
          ("Updated permissions for: " ++ path ++ " (Level: " ++ level ++ ")\n"))
    else (some ("invalid permission level: " ++ level), st)
  else setWindowsPermissions sys path level st

/-- Package `util` over the system `sys`, as package `cmd` uses it. -/
def util {W : Type} (sys : Sys W) : Util W where
  Intro := Intro sys
  Create := Create sys
  ForceCreate := ForceCreate sys
  CreateDir := CreateDir sys
  ModifyTimestamps := ModifyTimestamps sys
  ModifyPermissions := ModifyPermissions sys

/-! ## An in-memory filesystem implementing `Sys`

A POSIX-like tree of files and directories addressed by absolute component
lists, with `/` as the only separator.  Path resolution walks the components
from the root (absolute path) or from the working directory: an empty
component and `.` stay in place, `..` goes to the parent, a name goes to that
child; every directory walked through must exist.  The empty path names
nothing. -/

/-- An entry of the tree. -/
structure Node where
  isDir : Bool
  modTime : Time
deriving DecidableEq, Repr

/-- The filesystem: the entry at each absolute path below the root, the
working directory and the clock. -/
structure MemFS where
  nodes : List String → Option Node
  cwd : List String
  now : Time

/-- The entry at `q`; the root `[]` is always a directory. -/
def MemFS.node (fs : MemFS) (q : List String) : Option Node :=
  if q = [] then some { isDir := true, modTime := fs.now } else fs.nodes q

/-- Put entry `n` at `q`. -/
def MemFS.set (fs : MemFS) (q : List String) (n : Node) : MemFS :=
  { fs with nodes := fun r => if r = q then some n else fs.nodes r }

/-- Whether `q` is a directory. -/
def MemFS.isDirAt (fs : MemFS) (q : List String) : Bool :=
  match fs.node q with
  | some n => n.isDir
  | none => false

/-- Split at every `/`; `cur` is the component being read, reversed. -/
def splitOnSlash : List Char → List Char → List String
  | [], cur => [String.mk cur.reverse]
  | c :: cs, cur =>
    if c = '/' then String.mk cur.reverse :: splitOnSlash cs [] else splitOnSlash cs (c :: cur)

/-- The components of a path. -/
def components (path : String) : List String := splitOnSlash path.data []

/-- Where resolution of `path` starts. -/
def MemFS.start (fs : MemFS) (path : String) : List String :=
  if path.data.head? = some '/' then [] else fs.cwd

/-- Walk `comps` from directory `cur`; the entry reached, if every step exists. -/
def MemFS.lookup (fs : MemFS) : List String → List String → Option (List String × Node)
  | cur, [] => (fs.node cur).map fun n => (cur, n)
  | cur, c :: cs =>
    if fs.isDirAt cur then
      if c = "" ∨ c = "." then fs.lookup cur cs
      else if c = ".." then fs.lookup cur.dropLast cs
      else fs.lookup (cur ++ [c]) cs
    else none

/-- Model of `os.Stat`. -/
def memStat (fs : MemFS) (path : String) : Except String FileInfo :=
  if path = "" then Except.error "stat : no such file or directory"
  else
    match fs.lookup (fs.start path) (components path) with
    | some (_, n) => Except.ok { isDir := n.isDir, modTime := n.modTime }
    | none => Except.error ("stat " ++ path ++ ": no such file or directory")

/-- Walk `comps` from `cur`, making each missing directory on the way. -/
def mkdirWalk (path : String) : MemFS → List String → List String → Option String × MemFS
  | fs, cur, [] =>
    if fs.isDirAt cur then (none, fs) else (some ("mkdir " ++ path ++ ": not a directory"), fs)
  | fs, cur, c :: cs =>
    if fs.isDirAt cur then
      if c = "" ∨ c = "." then mkdirWalk path fs cur cs
      else if c = ".." then mkdirWalk path fs cur.dropLast cs
      else
        match fs.node (cur ++ [c]) with
        | some n =>
          if n.isDir then mkdirWalk path fs (cur ++ [c]) cs
          else (some ("mkdir " ++ path ++ ": not a directory"), fs)
        | none => mkdirWalk path (fs.set (cur ++ [c]) { isDir := true, modTime := fs.now }) (cur ++ [c]) cs
    else (some ("mkdir " ++ path ++ ": not a directory"), fs)

/-- Model of `os.MkdirAll`. -/
def memMkdirAll (fs : MemFS) (path : String) (_perm : Nat) : Option String × MemFS :=
  if path = "" then (some "mkdir : no such file or directory", fs)
  else mkdirWalk path fs (fs.start path) (components path)

/-- Model of `os.WriteFile` (create or truncate, write only). -/
def memWriteFile (fs : MemFS) (path : String) (_data : String) (_perm : Nat) :
    Option String × MemFS :=
  if path = "" then (some "open : no such file or directory", fs)
  else
    match fs.lookup (fs.start path) (components path).dropLast, (components path).getLast? with
    | some (d, n), some last =>
      if !n.isDir then (some ("open " ++ path ++ ": not a directory"), fs)
      else if last = "" ∨ last = "." ∨ last = ".." then (some ("open " ++ path ++ ": is a directory"), fs)
      else
        match fs.node (d ++ [last]) with
        | some m =>
          if m.isDir then (some ("open " ++ path ++ ": is a directory"), fs)
          else (none, fs.set (d ++ [last]) { isDir := false, modTime := fs.now })
        | none => (none, fs.set (d ++ [last]) { isDir := false, modTime := fs.now })
    | _, _ => (some ("open " ++ path ++ ": no such file or directory"), fs)

/-- Model of `os.RemoveAll`: the entry and everything below it. -/
def memRemoveAll (fs : MemFS) (path : String) : Option String × MemFS :=
  if path = "" then (none, fs)
  else if (components path).getLast? = some "." then
    (some ("RemoveAll " ++ path ++ ": invalid argument"), fs)
  else
    match fs.lookup (fs.start path) (components path) with
    | some (q, _) =>
      if q = [] then (some ("unlinkat " ++ path ++ ": device or resource busy"), fs)
      else (none, { fs with nodes := fun r => if q.isPrefixOf r then none else fs.nodes r })
    | none => (none, fs)

/-- Model of `os.OpenFile path os.O_RDWR 0`. -/
def memOpenFile (fs : MemFS) (path : String) : Option String :=
  match memStat fs path with
  | Except.ok info => if info.isDir then some ("open " ++ path ++ ": is a directory") else none
  | Except.error _ => some ("open " ++ path ++ ": no such file or directory")

/-- Model of `syscall.SetFileTime` on the file at `path`. -/
def memSetFileTime (fs : MemFS) (path : String) (t : Time) : Option String × MemFS :=
  if path = "" then (some "invalid handle", fs)
  else
    match fs.lookup (fs.start path) (components path) with
    | some (q, n) => (none, fs.set q { n with modTime := t })
    | none => (some "invalid handle", fs)

/-- Model of `os.Chmod`; permission bits are not kept. -/
def memChmod (fs : MemFS) (path : String) (_perm : Nat) : Option String × MemFS :=
  match memStat fs path with
  | Except.ok _ => (none, fs)
  | Except.error _ => (some ("chmod " ++ path ++ ": no such file or directory"), fs)

/-- Lexical `filepath.Clean` on components: `stack` holds the elements kept, last first. -/
def cleanLoop (rooted : Bool) : List String → List String → List String
  | [], stack => stack.reverse
  | c :: cs, stack =>
    if c = "" ∨ c = "." then cleanLoop rooted cs stack
    else if c = ".." then
      match stack with
      | top :: below =>
        if top = ".." then cleanLoop rooted cs (".." :: stack) else cleanLoop rooted cs below
      | [] => if rooted then cleanLoop rooted cs [] else cleanLoop rooted cs [".."]
    else cleanLoop rooted cs (c :: stack)

/-- Model of `filepath.Clean`. -/
def memClean (path : String) : String :=
  let rooted := decide (path.data.head? = some '/')
  let body := "/".intercalate (cleanLoop rooted (components path) [])
  if rooted then "/" ++ body else if body = "" then "." else body

/-- All of `cs` up to and including its last `/`. -/
def uptoLastSlash (cs : List Char) : List Char :=
  (cs.reverse.dropWhile fun c => c != '/').reverse

/-- Model of `filepath.Dir`. -/
def memDir (path : String) : String := memClean (String.mk (uptoLastSlash path.data))

/-- A two-digit decimal. -/
def twoDigits (n : Nat) : String :=
  String.mk [Char.ofNat (48 + n / 10 % 10), Char.ofNat (48 + n % 10)]

/-- Model of `time.Time.String`, without the fraction and the zone offset. -/
def memTimeString (t : Time) : String :=
  toString t.year ++ "-" ++ twoDigits t.month ++ "-" ++ twoDigits t.day ++ " " ++
    twoDigits t.hour ++ ":" ++ twoDigits t.minute ++ ":" ++ twoDigits t.second ++ " " ++ t.location

/-- The in-memory filesystem as a `Sys`. -/
def memSys : Sys MemFS where
  bannerInline := fun text => text
  isPathSeparator := fun c => c = '/'
  dir := memDir
  goos := "linux"
  timeString := memTimeString
  stat := memStat
  mkdirAll := memMkdirAll
  writeFile := memWriteFile
  removeAll := memRemoveAll
  openFile := memOpenFile
  setFileTime := memSetFileTime
  chmod := memChmod
  combinedOutput := fun fs _ _ => (("", some "exec: icacls: executable file not found in $PATH"), fs)

/-- The filesystem holding nothing but the root, which is the working directory. -/
def emptyFS : MemFS :=
  { nodes := fun _ => none, cwd := [],
    now := { year := 2024, month := 1, day := 1, hour := 8, minute := 0, second := 0,
             nanosecond := 0, location := "Local" } }

/-! ## Notions of the specification -/

/-- One of the four tokens that take the next token as their value. -/
def takesValue (v : String) : Bool :=
  decide (v = "-t" ∨ v = "--timestamp" ∨ v = "-p" ∨ v = "--permissions")

/-- For each position of the argument list, whether its token is consumed as
the value of the token before it: it is, exactly when the token before it is
one of the four value-taking tokens and is not itself consumed as a value.
`prev` says so of the token before the list. -/
def consumedFrom : Bool → List String → List Bool
  | _, [] => []
  | prev, v :: tl => prev :: consumedFrom (!prev && takesValue v) tl

/-- Whether each position of `args` is consumed as a value. -/
def consumed (args : List String) : List Bool := consumedFrom false args

/-- Token `v` equals the Name or the Shorthand of a registered flag. -/
def CMD.registered (c : CMD) (v : String) : Bool :=
  c.flags.any fun f => decide (f.Name = v ∨ f.Shorthand = v)

/-- The "rest" list in the words of the specification: the tokens, in order,
that are not consumed as a value, are none of the four value-taking tokens and
match no registered flag. -/
def specRest (c : CMD) (args : List String) : List String :=
  ((args.zip (consumed args)).filter fun x => !x.2 && !takesValue x.1 && !c.registered x.1).map
    Prod.fst

/-- What `extract` produces for a value-taking token `v` followed by `x`. -/
def valueTokenResult (v x : String) : Extracted :=
  if v = "-t" ∨ v = "--timestamp" then { rest := [], flags := [timestampFlag x], out := [] }
  else { rest := [], flags := [permissionsFlag x], out := [] }

/-- What `extract` produces for a value-taking token `v` that ends the list. -/
def missingValueResult (v : String) : Extracted :=
  if v = "-t" ∨ v = "--timestamp" then
    { rest := [], flags := [], out := ["Error: Missing value for -t / --timestamp flag\n"] }
  else { rest := [], flags := [], out := ["Error: Missing value for -p / --permissions flag\n"] }

/-- What `extract` produces for a token `v` that takes no value. -/
def plainTokenResult (c : CMD) (v : String) : Extracted :=
  if (c.isFlag v).1 then { rest := [], flags := [(c.isFlag v).2], out := [] }
  else { rest := [v], flags := [], out := [] }

/-- Results of extraction one after the other. -/
def Extracted.append (a b : Extracted) : Extracted :=
  { rest := a.rest ++ b.rest, flags := a.flags ++ b.flags, out := a.out ++ b.out }

/-- Some flag of the list has one of the names. -/
def present (names : List String) (flags : List Flag) : Bool :=
  flags.any fun f => decide (f.Name ∈ names)

/-- Which names stand for an option: the long name or its one-letter form,
as the `switch` of `processPath` has it. -/
def longOrShort (long : String) : List String :=
  if long = "--directory" then ["--directory", "-d"]
  else if long = "--force" then ["--force", "-f"]
  else if long = "--timestamp" then ["--timestamp", "-t"]
  else if long = "--permissions" then ["--permissions", "-p"]
  else if long = "--update" then ["--update", "-u"]
  else if long = "--help" then ["--help", "-h"]
  else [long]

/-- The key of the `options` map that the `switch` of `processPath` sets for
a flag name; `none` for its `default` branch. -/
def optionKey (name : String) : Option String :=
  if name = "--directory" ∨ name = "-d" then some "directory"
  else if name = "--force" ∨ name = "-f" then some "force"
  else if name = "--timestamp" ∨ name = "-t" then some "timestamp"
  else if name = "--permissions" ∨ name = "-p" then some "permissions"
  else if name = "--update" ∨ name = "-u" then some "update"
  else if name = "--help" ∨ name = "-h" then some "help"
  else none

/-- The index of the last flag of the list that satisfies `p`. -/
def lastIndex (p : Flag → Bool) : List Flag → Option Nat
  | [] => none
  | f :: tl =>
    match lastIndex p tl with
    | some j => some (j + 1)
    | none => if p f then some 0 else none

/-- What `Create` relies on from the system: after a successful `os.MkdirAll`
or `os.WriteFile` on a path, `os.Stat` of that path succeeds. -/
structure Sys.Lawful {W : Type} (sys : Sys W) : Prop where
  stat_mkdirAll : ∀ (w : W) (path : String) (perm : Nat),
    (sys.mkdirAll w path perm).1 = none → Exists sys path (sys.mkdirAll w path perm).2 = true
  stat_writeFile : ∀ (w : W) (path data : String) (perm : Nat),
    (sys.writeFile w path data perm).1 = none →
      Exists sys path (sys.writeFile w path data perm).2 = true

/-- The system calls `Create` makes for a path that does not exist yet all
succeed: `MkdirAll` of the parent and `WriteFile` of the path when it looks
like a file, `MkdirAll` of the path otherwise. -/
def createCallsSucceed {W : Type} (sys : Sys W) (path : String) (w : W) : Bool :=
  if LooksLikeFile sys path then
    decide ((sys.mkdirAll w (sys.dir path) 0o755).1 = none) &&
      decide ((sys.writeFile (sys.mkdirAll w (sys.dir path) 0o755).2 path "" 0o644).1 = none)
  else decide ((sys.mkdirAll w path 0o755).1 = none)

/-- The path a call acts on. -/
def Call.path : Call → String
  | Call.Create p => p
  | Call.ForceCreate p => p
  | Call.CreateDir p => p
  | Call.ModifyTimestamps p _ => p
  | Call.ModifyPermissions p _ => p

/-! # Theorems -/

/-! ## Argument extraction -/

theorem Extracted.append_assoc (a b c : Extracted) : (a.append b).append c = a.append (b.append c) := by
  simp [Extracted.append, List.append_assoc]

theorem Extracted.empty_append (a : Extracted) :
    ({ rest := [], flags := [], out := [] } : Extracted).append a = a := by
  simp [Extracted.append]

theorem Extracted.append_empty (a : Extracted) :
    a.append ({ rest := [], flags := [], out := [] } : Extracted) = a := by
  simp [Extracted.append]

theorem extractLoop_acc (c : CMD) :
    ∀ (n : Nat) (args : List String) (acc : Extracted), args.length ≤ n →
      extractLoop c args acc = acc.append (c.extract args) := by
  intro n
  induction n using Nat.strong_induction_on with
  | _ n ih =>
    intro args acc hlen
    match args, hlen with
    | [], _ => simp [CMD.extract, extractLoop, Extracted.append]
    | [v], _ =>
      simp only [CMD.extract, extractLoop]
      split_ifs <;> simp [Extracted.append, extractLoop]
    | v :: x :: tl, hlen =>
      have h2 : tl.length < n := by simp at hlen; omega
      have h1 : (x :: tl).length < n := by simp at hlen ⊢; omega
      simp only [CMD.extract, extractLoop]
      split_ifs
      · rw [ih _ h2 tl _ le_rfl, ih _ h2 tl { rest := [], flags := [] ++ [timestampFlag x], out := [] } le_rfl,
          ← Extracted.append_assoc]
        simp [Extracted.append]
      · rw [ih _ h2 tl _ le_rfl, ih _ h2 tl { rest := [], flags := [] ++ [permissionsFlag x], out := [] } le_rfl,
          ← Extracted.append_assoc]
        simp [Extracted.append]
      · rw [ih _ h1 (x :: tl) _ le_rfl,
          ih _ h1 (x :: tl) { rest := [], flags := [] ++ [(c.isFlag v).2], out := [] } le_rfl,
          ← Extracted.append_assoc]
        simp [Extracted.append]
      · rw [ih _ h1 (x :: tl) _ le_rfl,
          ih _ h1 (x :: tl) { rest := [] ++ [v], flags := [], out := [] } le_rfl,
          ← Extracted.append_assoc]
        simp [Extracted.append]

theorem extract_nil (c : CMD) : c.extract [] = { rest := [], flags := [], out := [] } := by
  simp [CMD.extract, extractLoop]

theorem extract_value (c : CMD) (v x : String) (tl : List String) (hv : takesValue v = true) :
    c.extract (v :: x :: tl) = (valueTokenResult v x).append (c.extract tl) := by
  simp only [takesValue, decide_eq_true_eq] at hv
  simp only [CMD.extract, extractLoop, valueTokenResult]
  split_ifs with h1 h2
  · rw [extractLoop_acc c _ tl _ le_rfl]; simp [CMD.extract]
  · rw [extractLoop_acc c _ tl _ le_rfl]; simp [CMD.extract]
  · exfalso; tauto
  · exfalso; tauto

theorem extract_missing (c : CMD) (v : String) (hv : takesValue v = true) :
    c.extract [v] = missingValueResult v := by
  simp only [takesValue, decide_eq_true_eq] at hv
  simp only [CMD.extract, extractLoop, missingValueResult]
  split_ifs with h1 h2
  · simp
  · simp
  · exfalso; tauto
  · exfalso; tauto

theorem extract_plain (c : CMD) (v : String) (tl : List String) (hv : takesValue v = false) :
    c.extract (v :: tl) = (plainTokenResult c v).append (c.extract tl) := by
  simp only [takesValue, decide_eq_false_iff_not, not_or] at hv
  obtain ⟨h1, h2, h3, h4⟩ := hv
  unfold CMD.extract plainTokenResult
  cases tl with
  | nil =>
    simp only [extractLoop, h1, h2, h3, h4, or_self, if_false]
    split_ifs <;> simp [Extracted.append]
  | cons x tl2 =>
    rw [extractLoop]
    simp only [h1, h2, h3, h4, or_self, if_false]
    split_ifs
    · rw [extractLoop_acc c _ (x :: tl2) _ le_rfl]; simp [CMD.extract, Extracted.append]
    · rw [extractLoop_acc c _ (x :: tl2) _ le_rfl]; simp [CMD.extract, Extracted.append]

theorem isFlagLoop_fst (arg : String) (fl : List Flag) :
    (isFlagLoop arg fl).1 = fl.any fun f => decide (f.Name = arg ∨ f.Shorthand = arg) := by
  induction fl with
  | nil => simp [isFlagLoop]
  | cons f tl ih =>
    simp only [isFlagLoop, List.any_cons]
    split_ifs with h
    · simp [h]
    · simp [h, ih]

theorem isFlag_fst (c : CMD) (arg : String) : (c.isFlag arg).1 = c.registered arg := by
  simp [CMD.isFlag, CMD.registered, isFlagLoop_fst]

theorem extract_split (c : CMD) :
    ∀ (n : Nat) (args : List String) (i : Nat), args.length ≤ n →
      (consumed args)[i]? = some false →
      c.extract args = (c.extract (args.take i)).append (c.extract (args.drop i)) := by
  intro n
  induction n using Nat.strong_induction_on with
  | _ n ih =>
    intro args i hlen hi
    cases i with
    | zero => simp [extract_nil, Extracted.empty_append]
    | succ j =>
      match args, hlen, hi with
      | [], _, hi => simp [consumed, consumedFrom] at hi
      | v :: tl, hlen, hi =>
        cases hv : takesValue v with
        | true =>
          match tl, hlen, hi with
          | [], _, hi => simp [consumed, consumedFrom] at hi
          | x :: tl2, hlen, hi =>
            cases j with
            | zero => simp [consumed, consumedFrom, hv] at hi
            | succ k =>
              have hk : (consumed tl2)[k]? = some false := by
                simpa [consumed, consumedFrom, hv] using hi
              have hl : tl2.length < n := by simp at hlen; omega
              have := ih _ hl tl2 k le_rfl hk
              simp only [List.take_succ_cons, List.drop_succ_cons]
              rw [extract_value c v x tl2 hv, extract_value c v x _ hv, this,
                Extracted.append_assoc]
        | false =>
          have hk : (consumed tl)[j]? = some false := by
            simpa [consumed, consumedFrom, hv] using hi
          have hl : tl.length < n := by simp at hlen; omega
          have := ih _ hl tl j le_rfl hk
          simp only [List.take_succ_cons, List.drop_succ_cons]
          rw [extract_plain c v tl hv, extract_plain c v _ hv, this, Extracted.append_assoc]

theorem extract_rest_spec (c : CMD) :
    ∀ (n : Nat) (args : List String), args.length ≤ n → (c.extract args).rest = specRest c args := by
  intro n
  induction n using Nat.strong_induction_on with
  | _ n ih =>
    intro args hlen
    match args, hlen with
    | [], _ => simp [extract_nil, specRest, consumed, consumedFrom]
    | v :: tl, hlen =>
      cases hv : takesValue v with
      | true =>
        match tl, hlen with
        | [], _ =>
          rw [extract_missing c v hv]
          simp only [missingValueResult]
          split_ifs <;> simp [specRest, consumed, consumedFrom, hv]
        | x :: tl2, hlen =>
          have hl : tl2.length < n := by simp at hlen; omega
          rw [extract_value c v x tl2 hv]
          have := ih _ hl tl2 le_rfl
          simp only [Extracted.append, this, valueTokenResult]
          split_ifs <;> simp [specRest, consumed, consumedFrom, hv]
      | false =>
        have hl : tl.length < n := by simp at hlen; omega
        rw [extract_plain c v tl hv]
        have := ih _ hl tl le_rfl
        simp only [Extracted.append, this, plainTokenResult, isFlag_fst]
        cases hr : c.registered v <;> simp [specRest, consumed, consumedFrom, hv, hr]

/-- C2: for every registry and argument list, the rest list `extract` returns
is exactly the subsequence of the arguments, in order, made of the tokens that
are not consumed as a value, are none of `-t`, `--timestamp`, `-p`,
`--permissions`, and equal neither Name nor Shorthand of a registered flag. -/
theorem extract_rest_eq_specRest (c : CMD) (args : List String) :
    (c.extract args).rest = specRest c args :=
  extract_rest_spec c args.length args le_rfl

/-- C3: if a token `-t`/`--timestamp` (resp. `-p`/`--permissions`) is scanned
as a flag at position `i` (it is not consumed as a value) and a token `x`
follows it, then `extract` yields what it yields on the tokens before `i`, then
exactly one flag `--timestamp` (resp. `--permissions`) with Value `x`, then what
it yields on the tokens after `i+1`: the token `x` itself adds nothing to rest
and no flag of its own, whatever its text. -/
theorem extract_value_consumed (c : CMD) (args : List String) (i : Nat) (x : String)
    (hscan : (consumed args)[i]? = some false) (hnext : args[i + 1]? = some x) :
    ((args[i]? = some "-t" ∨ args[i]? = some "--timestamp") →
      c.extract args =
        ((c.extract (args.take i)).append { rest := [], flags := [timestampFlag x], out := [] }).append
          (c.extract (args.drop (i + 2)))
      ∧ (timestampFlag x).Name = "--timestamp" ∧ (timestampFlag x).Value = x
      ∧ timestampFlag x ∈ (c.extract args).flags) ∧
    ((args[i]? = some "-p" ∨ args[i]? = some "--permissions") →
      c.extract args =
        ((c.extract (args.take i)).append { rest := [], flags := [permissionsFlag x], out := [] }).append
          (c.extract (args.drop (i + 2)))
      ∧ (permissionsFlag x).Name = "--permissions" ∧ (permissionsFlag x).Value = x
      ∧ permissionsFlag x ∈ (c.extract args).flags) := by
  have hsplit := extract_split c args.length args i le_rfl hscan
  have hi : i + 1 < args.length := by
    rcases Nat.lt_or_ge (i + 1) args.length with h | h
    · exact h
    · rw [List.getElem?_eq_none h] at hnext; cases hnext
  have hdrop : args.drop i = args[i] :: x :: args.drop (i + 2) := by
    rw [List.drop_eq_getElem_cons (by omega), List.drop_eq_getElem_cons hi]
    rw [List.getElem?_eq_getElem hi] at hnext
    simp only [Option.some.injEq] at hnext
    rw [hnext]
  have hget : args[i]? = some args[i] := List.getElem?_eq_getElem (by omega)
  constructor
  · intro htok
    rw [hget] at htok
    simp only [Option.some.injEq] at htok
    have hv : takesValue args[i] = true := by
      simp only [takesValue, decide_eq_true_eq]; tauto
    have hres : valueTokenResult args[i] x = { rest := [], flags := [timestampFlag x], out := [] } := by
      simp only [valueTokenResult]; rw [if_pos htok]
    have heq : c.extract args =
        ((c.extract (args.take i)).append { rest := [], flags := [timestampFlag x], out := [] }).append
          (c.extract (args.drop (i + 2))) := by
      rw [hsplit, hdrop, extract_value c _ x _ hv, hres, Extracted.append_assoc]
    refine ⟨heq, rfl, rfl, ?_⟩
    rw [heq]
    simp [Extracted.append]
  · intro htok
    rw [hget] at htok
    simp only [Option.some.injEq] at htok
    have hv : takesValue args[i] = true := by
      simp only [takesValue, decide_eq_true_eq]; tauto
    have hne : ¬ (args[i] = "-t" ∨ args[i] = "--timestamp") := by
      rcases htok with h | h <;> rw [h] <;> decide
    have hres : valueTokenResult args[i] x = { rest := [], flags := [permissionsFlag x], out := [] } := by
      simp only [valueTokenResult]; rw [if_neg hne]
    have heq : c.extract args =
        ((c.extract (args.take i)).append { rest := [], flags := [permissionsFlag x], out := [] }).append
          (c.extract (args.drop (i + 2))) := by
      rw [hsplit, hdrop, extract_value c _ x _ hv, hres, Extracted.append_assoc]
    refine ⟨heq, rfl, rfl, ?_⟩
    rw [heq]
    simp [Extracted.append]

/-- Witness for C3: in `-t -f a.txt` with the registry of `main`, the
registered token `-f` is the value of `-t`. -/
theorem extract_value_consumed_witness :
    (consumed ["-t", "-f", "a.txt"])[0]? = some false ∧
    (["-t", "-f", "a.txt"] : List String)[0 + 1]? = some "-f" ∧
    (mainCMD.extract ["-t", "-f", "a.txt"]).flags = [timestampFlag "-f"] ∧
    (mainCMD.extract ["-t", "-f", "a.txt"]).rest = ["a.txt"] :=
  ⟨by decide, by decide,
   by
    rw [((extract_value_consumed mainCMD ["-t", "-f", "a.txt"] 0 "-f" (by decide) (by decide)).1
      (Or.inl (by decide))).1]
    decide,
   by
    rw [((extract_value_consumed mainCMD ["-t", "-f", "a.txt"] 0 "-f" (by decide) (by decide)).1
      (Or.inl (by decide))).1]
    decide⟩

/-- C4: a value-taking token that ends the argument list and is not itself
consumed as a value is reported and dropped: `extract` returns the same rest
and the same flags as on the list without that token, and prints one more
error line. -/
theorem extract_missing_value_dropped (c : CMD) (init : List String) (tok : String)
    (htok : tok = "-t" ∨ tok = "--timestamp" ∨ tok = "-p" ∨ tok = "--permissions")
    (hscan : (consumed (init ++ [tok]))[init.length]? = some false) :
    (c.extract (init ++ [tok])).rest = (c.extract init).rest ∧
    (c.extract (init ++ [tok])).flags = (c.extract init).flags ∧
    (c.extract (init ++ [tok])).out = (c.extract init).out ++ (missingValueResult tok).out ∧
    (missingValueResult tok).out.length = 1 := by
  have hv : takesValue tok = true := by simp only [takesValue, decide_eq_true_eq]; exact htok
  have hsplit := extract_split c (init ++ [tok]).length (init ++ [tok]) init.length le_rfl hscan
  simp only [List.take_left', List.drop_left', extract_missing c tok hv] at hsplit
  rw [hsplit]
  refine ⟨?_, ?_, ?_, ?_⟩
  · simp only [Extracted.append, missingValueResult]; split_ifs <;> simp
  · simp only [Extracted.append, missingValueResult]; split_ifs <;> simp
  · simp only [Extracted.append]
  · simp only [missingValueResult]; split_ifs <;> simp

/-- Witness for C4: `a.txt -f -p` against `a.txt -f` with the registry of `main`. -/
theorem extract_missing_value_dropped_witness :
    (consumed (["a.txt", "-f"] ++ ["-p"]))[(["a.txt", "-f"] : List String).length]? = some false ∧
    (mainCMD.extract (["a.txt", "-f"] ++ ["-p"])).rest = (mainCMD.extract ["a.txt", "-f"]).rest ∧
    (mainCMD.extract (["a.txt", "-f"] ++ ["-p"])).flags = (mainCMD.extract ["a.txt", "-f"]).flags ∧
    (mainCMD.extract (["a.txt", "-f"] ++ ["-p"])).flags =
      [{ Name := "--force", Shorthand := "-f", Usage := "Overwrite existing files", Value := "" }] :=
  ⟨by decide,
   (extract_missing_value_dropped mainCMD ["a.txt", "-f"] "-p" (by decide) (by decide)).1,
   (extract_missing_value_dropped mainCMD ["a.txt", "-f"] "-p" (by decide) (by decide)).2.1,
   by decide⟩

/-! ## The options map -/

theorem optionsLoop_cons (v : Flag) (tl : List Flag) (i : Nat) (o : Options) (out : List String) :
    optionsLoop (v :: tl) i (o, out) =
      optionsLoop tl (i + 1)
        (match optionKey v.Name with
         | some k => (o.set k { Index := i, Active := true }, out)
         | none => (o, out ++ ["Unknown flag: " ++ v.Name ++ "\n"])) := by
  simp only [optionsLoop, optionKey]
  split_ifs <;> rfl

theorem optionsLoop_key (key : String) :
    ∀ (flags : List Flag) (i : Nat) (o : Options) (out : List String),
      (optionsLoop flags i (o, out)).1 key =
        match lastIndex (fun f => decide (optionKey f.Name = some key)) flags with
        | some j => { Index := i + j, Active := true }
        | none => o key := by
  intro flags
  induction flags with
  | nil => intro i o out; simp [optionsLoop, lastIndex]
  | cons v tl ih =>
    intro i o out
    rw [optionsLoop_cons]
    simp only [lastIndex]
    rcases Option.eq_none_or_eq_some (optionKey v.Name) with hk | ⟨k, hk⟩
    · simp only [hk, ih]
      cases hl : lastIndex (fun f => decide (optionKey f.Name = some key)) tl with
      | none => simp
      | some j => simp [Nat.add_assoc, Nat.add_comm 1]
    · simp only [hk, ih]
      cases hl : lastIndex (fun f => decide (optionKey f.Name = some key)) tl with
      | none =>
        by_cases hkey : k = key
        · simp [hkey, Options.set]
        · have hkey2 : ¬ key = k := fun h => hkey h.symm
          simp [hkey, hkey2, Options.set]
      | some j => simp [Nat.add_assoc, Nat.add_comm 1]

theorem parseOptions_key (flags : List Flag) (key : String) :
    parseOptions flags key =
      match lastIndex (fun f => decide (optionKey f.Name = some key)) flags with
      | some j => { Index := j, Active := true }
      | none => { Index := 0, Active := false } := by
  unfold parseOptions
  rw [optionsLoop_key]
  cases lastIndex (fun f => decide (optionKey f.Name = some key)) flags <;> simp [Options.empty]

theorem lastIndex_none (p : Flag → Bool) :
    ∀ (flags : List Flag), lastIndex p flags = none ↔ flags.any p = false := by
  intro flags
  induction flags with
  | nil => simp [lastIndex]
  | cons f tl ih =>
    simp only [lastIndex, List.any_cons]
    cases hl : lastIndex p tl with
    | some k =>
      have : ¬ (tl.any p = false) := fun h => by rw [← ih] at h; rw [hl] at h; cases h
      simp only [Bool.not_eq_false] at this
      simp [this]
    | none =>
      have := ih.mp hl
      cases hp : p f <;> simp [this]

theorem optionKey_directory (n : String) :
    optionKey n = some "directory" ↔ n ∈ longOrShort "--directory" := by
  simp only [optionKey, longOrShort]
  split_ifs <;> simp_all

theorem keyPred_eq (key : String) (names : List String)
    (h : ∀ n, optionKey n = some key ↔ n ∈ names) :
    (fun f : Flag => decide (optionKey f.Name = some key)) = fun f => decide (f.Name ∈ names) := by
  funext f
  simp only [h]

theorem parseOptions_active (flags : List Flag) (key : String) (names : List String)
    (h : ∀ n, optionKey n = some key ↔ n ∈ names) :
    (parseOptions flags key).Active = present names flags := by
  rw [parseOptions_key, keyPred_eq key names h]
  unfold present
  cases hl : lastIndex (fun f => decide (f.Name ∈ names)) flags with
  | none => exact ((lastIndex_none _ flags).mp hl).symm
  | some j =>
    have : ¬ (flags.any (fun f => decide (f.Name ∈ names)) = false) := by
      intro hc; rw [← lastIndex_none] at hc; rw [hl] at hc; cases hc
    simp only [Bool.not_eq_false] at this
    simp [this]

theorem andThen_pure {W : Type} (r : Outcome × St W) :
    andThen r (fun st => (Outcome.returned none, st)) = r := by
  rcases r with ⟨o, st⟩
  cases o with
  | returned e => cases e <;> rfl
  | panicked m => rfl

theorem andThen_assoc {W : Type} (r : Outcome × St W) (f g : St W → Outcome × St W) :
    andThen (andThen r f) g = andThen r (fun st => andThen (f st) g) := by
  rcases r with ⟨o, st⟩
  cases o with
  | returned e => cases e <;> rfl
  | panicked m => rfl

/-- In directory mode `processPath` is the one call of `CreateDir`. -/
theorem processPath_directory {W : Type} (u : Util W) (path : String) (flags : List Flag) (st : St W)
    (hd : present (longOrShort "--directory") flags = true) :
    processPath u path flags st =
      call (u.CreateDir path { st with out := st.out ++ unknownFlagLines flags }) := by
  unfold processPath
  simp only [parseOptions_active flags "directory" _ optionKey_directory, hd, if_true]

theorem present_of_mem (names : List String) (flags : List Flag) (f : Flag) (hf : f ∈ flags)
    (hn : f.Name ∈ names) : present names flags = true := by
  unfold present
  rw [List.any_eq_true]
  exact ⟨f, hf, by simpa using hn⟩

theorem process_append {W : Type} (u : Util W) (flags : List Flag) (a b : List String) (st : St W) :
    process u (a ++ b) flags st = andThen (process u a flags st) (process u b flags) := by
  induction a generalizing st with
  | nil => rfl
  | cons p tl ih =>
    simp only [List.cons_append, process, andThen_assoc]
    congr 1
    funext st1
    exact ih st1

/-! ## Path dispatch -/

/-- C5: when the flag list contains a flag named `--directory`, `processPath`
(after printing the unknown-flag lines) makes the single call `CreateDir` on
the path and returns its result, whatever the other flags are; on an existing
path this is the error "path already exists", with the filesystem untouched. -/
theorem processPath_directory_only {W : Type} (u : Util W) (sys : Sys W) (path : String)
    (flags : List Flag) (st : St W) (hd : ∃ f ∈ flags, f.Name = "--directory") :
    processPath u path flags st =
      call (u.CreateDir path { st with out := st.out ++ unknownFlagLines flags }) ∧
    (∀ (fails : Call → Bool) (st0 : St (List Call)),
      (processPath (recorder fails) path flags st0).2.world = st0.world ++ [Call.CreateDir path]) ∧
    (Exists sys path st.world = true →
      processPath (util sys) path flags st =
        (Outcome.returned (some "path already exists"),
          { world := st.world,
            out := st.out ++ unknownFlagLines flags ++ ["Path already exists.\n"] })) := by
  obtain ⟨f, hf, hn⟩ := hd
  have hp : present (longOrShort "--directory") flags = true :=
    present_of_mem _ flags f hf (by rw [hn]; decide)
  refine ⟨processPath_directory u path flags st hp, ?_, ?_⟩
  · intro fails st0
    rw [processPath_directory _ path flags st0 hp]
    simp [call, recorder, record]
  · intro hex
    rw [processPath_directory _ path flags st hp]
    simp [call, util, CreateDir, hex, St.print]

/-- Witness for C5: the flags extracted from `-d -f existing` by the registry
of `main`, on a filesystem in which directory `existing` exists. -/
theorem processPath_directory_only_witness :
    (∃ f ∈ (mainCMD.extract ["-d", "-f", "existing"]).flags, f.Name = "--directory") ∧
    Exists memSys "existing" (memMkdirAll emptyFS "existing" 0o755).2 = true ∧
    (processPath (util memSys) "existing" (mainCMD.extract ["-d", "-f", "existing"]).flags
        { world := (memMkdirAll emptyFS "existing" 0o755).2, out := [] }).1 =
      Outcome.returned (some "path already exists") ∧
    (processPath (recorder fun _ => false) "existing"
        (mainCMD.extract ["-d", "-f", "existing"]).flags { world := [], out := [] }).2.world =
      [Call.CreateDir "existing"] :=
  ⟨by decide, by decide,
   by
    rw [(processPath_directory_only (util memSys) memSys "existing"
      (mainCMD.extract ["-d", "-f", "existing"]).flags
      { world := (memMkdirAll emptyFS "existing" 0o755).2, out := [] } (by decide)).2.2 (by decide)],
   by
    rw [(processPath_directory_only (util memSys) memSys "existing"
      (mainCMD.extract ["-d", "-f", "existing"]).flags
      { world := (memMkdirAll emptyFS "existing" 0o755).2, out := [] } (by decide)).2.1]
    rfl⟩

theorem process_take_succ {W : Type} (u : Util W) (flags : List Flag) (rest : List String) (k : Nat)
    (hk : k < rest.length) (st : St W) :
    process u (rest.take (k + 1)) flags st =
      andThen (process u (rest.take k) flags st) (fun s => processPath u rest[k] flags s) := by
  rw [List.take_succ, List.getElem?_eq_getElem hk, Option.toList_some, process_append]
  congr 1
  funext s
  simp only [process]
  exact andThen_pure _

theorem process_nil_iff {W : Type} (u : Util W) (flags : List Flag) :
    ∀ (rest : List String) (st : St W),
      (process u rest flags st).1 = Outcome.returned none ↔
        ∀ k, (hk : k < rest.length) →
          (processPath u rest[k] flags (process u (rest.take k) flags st).2).1 =
            Outcome.returned none := by
  intro rest
  induction rest using List.reverseRecOn with
  | nil => intro st; simp [process]
  | append_singleton pre p ih =>
    intro st
    have hlast : process u (pre ++ [p]) flags st =
        andThen (process u pre flags st) (fun s => processPath u p flags s) := by
      rw [process_append]
      congr 1
      funext s
      simp only [process]
      exact andThen_pure _
    constructor
    · intro h k hk
      rw [hlast] at h
      have hpre : (process u pre flags st).1 = Outcome.returned none := by
        rcases hr : process u pre flags st with ⟨o, s1⟩
        rw [hr] at h
        cases o with
        | returned e =>
          cases e with
          | none => rfl
          | some m => simp [andThen] at h
        | panicked m => simp [andThen] at h
      rcases Nat.lt_or_ge k pre.length with hlt | hge
      · have := (ih st).mp hpre k hlt
        simpa [List.getElem_append_left hlt, List.take_append_of_le_length (Nat.le_of_lt hlt)]
          using this
      · have hkeq : k = pre.length := by simp at hk; omega
        subst hkeq
        rcases hr : process u pre flags st with ⟨o, s1⟩
        rw [hr] at h hpre
        simp only at hpre
        subst hpre
        simpa [andThen, hr] using h
    · intro h
      have hpre : (process u pre flags st).1 = Outcome.returned none := by
        rw [ih st]
        intro k hk
        have := h k (by simp; omega)
        simpa [List.getElem_append_left hk, List.take_append_of_le_length (Nat.le_of_lt hk)]
          using this
      have hp := h pre.length (by simp)
      rw [hlast]
      rcases hr : process u pre flags st with ⟨o, s1⟩
      rw [hr] at hpre
      simp only at hpre
      subst hpre
      simpa [andThen, hr] using hp

/-- C7: `process` handles the paths in list order and stops at the first
failure: if the paths before index `k` all succeed and `processPath` does not
return nil on the path at index `k`, `process` ends with that same outcome and
in the state `processPath` left there, whatever paths follow; and `process`
returns nil exactly when `processPath` returns nil on every path in turn. -/
theorem process_fail_fast {W : Type} (u : Util W) (flags : List Flag) (st : St W) :
    (∀ (pre post : List String) (p : String) (st1 st2 : St W) (o : Outcome),
      process u pre flags st = (Outcome.returned none, st1) →
      processPath u p flags st1 = (o, st2) → o ≠ Outcome.returned none →
      process u (pre ++ p :: post) flags st = (o, st2)) ∧
    (∀ rest : List String,
      (process u rest flags st).1 = Outcome.returned none ↔
        ∀ k, (hk : k < rest.length) →
          (processPath u rest[k] flags (process u (rest.take k) flags st).2).1 =
            Outcome.returned none) := by
  refine ⟨?_, fun rest => process_nil_iff u flags rest st⟩
  intro pre post p st1 st2 o hpre hp ho
  rw [process_append, hpre]
  simp only [andThen, process, hp]
  cases o with
  | returned e =>
    cases e with
    | none => exact absurd rfl ho
    | some m => rfl
  | panicked m => rfl

/-- Witness for C7: `Create` fails on `b`; the paths are `a`, `b`, `c`. -/
theorem process_fail_fast_witness :
    process (recorder fun c => decide (c = Call.Create "b")) (["a"] ++ "b" :: ["c"]) []
        { world := [], out := [] } =
      (Outcome.returned (some "failed"),
        { world := [Call.Create "a", Call.Create "b"], out := [] }) :=
  (process_fail_fast (recorder fun c => decide (c = Call.Create "b")) [] { world := [], out := [] }).1
    ["a"] ["c"] "b" { world := [Call.Create "a"], out := [] }
    { world := [Call.Create "a", Call.Create "b"], out := [] } (Outcome.returned (some "failed"))
    (by decide) (by decide) (by decide)

theorem hasHelp_append (a b : List Flag) : hasHelp (a ++ b) = (hasHelp a || hasHelp b) := by
  induction a with
  | nil => simp [hasHelp]
  | cons f tl ih =>
    simp only [List.cons_append, hasHelp]
    split_ifs <;> simp [ih]

/-- C1 (amended): with the registry of `main`, if `-h` or `--help` stands at a
position of the argument list where it is scanned as a flag (it is not
consumed as the value of a `-t`, `--timestamp`, `-p` or `--permissions` before
it), `Execute` prints what extraction printed and then the intro text, calls
no method of `util.Path`, leaves the world as it was and returns nil. -/
theorem execute_help {W : Type} (u : Util W) (prog : String) (args : List String) (i : Nat)
    (st : St W) (hscan : (consumed args)[i]? = some false)
    (htok : args[i]? = some "-h" ∨ args[i]? = some "--help") :
    mainCMD.Execute u (prog :: args) st =
      (Outcome.returned none,
        { world := st.world,
          out := st.out ++ (mainCMD.extract args).out ++ [u.Intro ++ "\n"] }) := by
  have hi : i < args.length := by
    rcases Nat.lt_or_ge i args.length with h | h
    · exact h
    · rw [List.getElem?_eq_none h] at htok; simp at htok
  have hsplit := extract_split mainCMD args.length args i le_rfl hscan
  rw [List.drop_eq_getElem_cons hi] at hsplit
  rw [List.getElem?_eq_getElem hi] at htok
  simp only [Option.some.injEq] at htok
  have hv : takesValue args[i] = false := by rcases htok with h | h <;> rw [h] <;> decide
  have hplain : hasHelp (plainTokenResult mainCMD args[i]).flags = true := by
    rcases htok with h | h <;> rw [h] <;> decide
  have hhelp : hasHelp (mainCMD.extract args).flags = true := by
    rw [hsplit, extract_plain mainCMD _ _ hv]
    simp only [Extracted.append, hasHelp_append, hplain, Bool.true_or, Bool.or_true]
  match args, hi, hhelp with
  | a :: tl, _, hhelp =>
    simp only [CMD.Execute, hhelp, if_true, St.print, List.append_assoc]

/-- Witness for C1: `-r -h file.txt`. -/
theorem execute_help_witness :
    (consumed ["-r", "-h", "file.txt"])[1]? = some false ∧
    (["-r", "-h", "file.txt"] : List String)[1]? = some "-h" ∧
    mainCMD.Execute (recorder fun _ => false) ("touch" :: ["-r", "-h", "file.txt"])
        { world := [], out := [] } =
      (Outcome.returned none,
        { world := [],
          out := [] ++ (mainCMD.extract ["-r", "-h", "file.txt"]).out ++
            [(recorder fun _ => false).Intro ++ "\n"] }) :=
  ⟨by decide, by decide,
   execute_help (recorder fun _ => false) "touch" ["-r", "-h", "file.txt"] 1
     { world := [], out := [] } (by decide) (Or.inl (by decide))⟩

/-- Counterexample to C1 as stated: in `-t -h file.txt` the token `-h` is the
value of `-t`.  `Execute` prints no intro text and processes `file.txt`: it
calls `Create` and then `ModifyTimestamps` with value `-h`; on the in-memory
filesystem the file is created and the call fails on the timestamp. -/
theorem execute_help_counterexample :
    "-h" ∈ (["-t", "-h", "file.txt"] : List String) ∧
    mainCMD.Execute (recorder fun _ => false) ["touch", "-t", "-h", "file.txt"]
        { world := [], out := [] } =
      (Outcome.returned none,
        { world := [Call.Create "file.txt", Call.ModifyTimestamps "file.txt" "-h"], out := [] }) ∧
    (mainCMD.Execute (util memSys) ["touch", "-t", "-h", "file.txt"]
        { world := emptyFS, out := [] }).1 =
      Outcome.returned (some ("invalid timestamp format: tried formats [" ++
        " ".intercalate formats ++ "]")) ∧
    (mainCMD.Execute (util memSys) ["touch", "-t", "-h", "file.txt"]
        { world := emptyFS, out := [] }).2.out = [] ∧
    Exists memSys "file.txt"
      (mainCMD.Execute (util memSys) ["touch", "-t", "-h", "file.txt"]
        { world := emptyFS, out := [] }).2.world = true := by
  decide

/-! ## Timestamps -/

theorem node_set (fs : MemFS) (q r : List String) (n : Node) (hq : q ≠ []) :
    (fs.set q n).node r = if r = q then some n else fs.node r := by
  unfold MemFS.node MemFS.set
  by_cases hr : r = []
  · subst hr
    have : ¬ ([] : List String) = q := fun h => hq h.symm
    simp [this]
  · simp [hr]

theorem lookup_mono (fs fs2 : MemFS)
    (hd : ∀ q, fs.isDirAt q = true → fs2.isDirAt q = true)
    (he : ∀ q, (fs.node q).isSome = true → (fs2.node q).isSome = true) :
    ∀ (cs cur r : List String) (n : Node), fs.lookup cur cs = some (r, n) →
      ∃ n2, fs2.lookup cur cs = some (r, n2) ∧ (n.isDir = true → n2.isDir = true) := by
  intro cs
  induction cs with
  | nil =>
    intro cur r n h
    simp only [MemFS.lookup, Option.map_eq_some'] at h
    obtain ⟨m, hm, heq⟩ := h
    simp only [Prod.mk.injEq] at heq
    obtain ⟨rfl, rfl⟩ := heq
    have h1 := he cur (by rw [hm]; rfl)
    obtain ⟨m2, hm2⟩ := Option.isSome_iff_exists.mp h1
    refine ⟨m2, by simp [MemFS.lookup, hm2], ?_⟩
    intro hdir
    have := hd cur (by simp [MemFS.isDirAt, hm, hdir])
    simpa [MemFS.isDirAt, hm2] using this
  | cons c cs ih =>
    intro cur r n h
    simp only [MemFS.lookup] at h ⊢
    by_cases hcur : fs.isDirAt cur = true
    · simp only [hcur, if_true] at h
      simp only [hd cur hcur, if_true]
      split_ifs at h ⊢
      · exact ih _ _ _ h
      · exact ih _ _ _ h
      · exact ih _ _ _ h
    · simp [hcur] at h

theorem mkdirWalk_spec (path : String) :
    ∀ (cs : List String) (fs : MemFS) (cur : List String),
      (mkdirWalk path fs cur cs).1 = none →
      (∀ q, fs.isDirAt q = true → (mkdirWalk path fs cur cs).2.isDirAt q = true) ∧
      (∀ q, (fs.node q).isSome = true → ((mkdirWalk path fs cur cs).2.node q).isSome = true) ∧
      (mkdirWalk path fs cur cs).2.cwd = fs.cwd ∧
      ∃ r n, (mkdirWalk path fs cur cs).2.lookup cur cs = some (r, n) := by
  intro cs
  induction cs with
  | nil =>
    intro fs cur h
    simp only [mkdirWalk] at h ⊢
    by_cases hcur : fs.isDirAt cur = true
    · simp only [hcur, if_true]
      refine ⟨fun q hq => hq, fun q hq => hq, trivial, ?_⟩
      simp only [MemFS.isDirAt] at hcur
      cases hn : fs.node cur with
      | none => rw [hn] at hcur; simp at hcur
      | some n => exact ⟨cur, n, by simp [MemFS.lookup, hn]⟩
    · simp [hcur] at h
  | cons c cs ih =>
    intro fs cur h
    simp only [mkdirWalk] at h ⊢
    by_cases hcur : fs.isDirAt cur = true
    · simp only [hcur, if_true] at h ⊢
      by_cases h1 : c = "" ∨ c = "."
      · simp only [h1, if_true] at h ⊢
        obtain ⟨hd, he, hc, r, n, hl⟩ := ih fs cur h
        refine ⟨hd, he, hc, r, n, ?_⟩
        simp only [MemFS.lookup, hd cur hcur, h1, if_true, hl]
      · simp only [h1, if_false] at h ⊢
        by_cases h2 : c = ".."
        · simp only [h2, if_true] at h ⊢
          obtain ⟨hd, he, hc, r, n, hl⟩ := ih fs cur.dropLast h
          refine ⟨hd, he, hc, r, n, ?_⟩
          have h3 : ¬ ((".." : String) = "" ∨ (".." : String) = ".") := by decide
          simp only [MemFS.lookup, hd cur hcur, h3, if_true, if_false, hl]
        · simp only [h2, if_false] at h ⊢
          cases hn : fs.node (cur ++ [c]) with
          | some m =>
            simp only [hn] at h ⊢
            by_cases hm : m.isDir = true
            · simp only [hm, if_true] at h ⊢
              obtain ⟨hd, he, hc, r, n, hl⟩ := ih fs (cur ++ [c]) h
              refine ⟨hd, he, hc, r, n, ?_⟩
              simp only [MemFS.lookup, hd cur hcur, h1, h2, if_true, if_false, hl]
            · simp [hm] at h
          | none =>
            simp only [hn] at h ⊢
            have hne : cur ++ [c] ≠ [] := by simp
            obtain ⟨hd, he, hc, r, n, hl⟩ :=
              ih (fs.set (cur ++ [c]) { isDir := true, modTime := fs.now }) (cur ++ [c]) h
            have hd0 : ∀ q, fs.isDirAt q = true →
                (fs.set (cur ++ [c]) { isDir := true, modTime := fs.now }).isDirAt q = true := by
              intro q hq
              simp only [MemFS.isDirAt, node_set fs _ q _ hne] at hq ⊢
              split_ifs with hqe
              · rfl
              · exact hq
            have he0 : ∀ q, (fs.node q).isSome = true →
                ((fs.set (cur ++ [c]) { isDir := true, modTime := fs.now }).node q).isSome = true := by
              intro q hq
              simp only [node_set fs _ q _ hne]
              split_ifs with hqe
              · rfl
              · exact hq
            refine ⟨fun q hq => hd q (hd0 q hq), fun q hq => he q (he0 q hq), hc, r, n, ?_⟩
            simp only [MemFS.lookup, hd cur (hd0 cur hcur), h1, h2, if_true, if_false, hl]
    · simp [hcur] at h

theorem lookup_node (fs : MemFS) :
    ∀ (cs cur r : List String) (n : Node), fs.lookup cur cs = some (r, n) → fs.node r = some n := by
  intro cs
  induction cs with
  | nil =>
    intro cur r n h
    simp only [MemFS.lookup, Option.map_eq_some'] at h
    obtain ⟨m, hm, heq⟩ := h
    simp only [Prod.mk.injEq] at heq
    obtain ⟨rfl, rfl⟩ := heq
    exact hm
  | cons c cs ih =>
    intro cur r n h
    simp only [MemFS.lookup] at h
    split_ifs at h
    · exact ih _ _ _ h
    · exact ih _ _ _ h
    · exact ih _ _ _ h

theorem lookup_append (fs : MemFS) :
    ∀ (a b cur : List String),
      fs.lookup cur (a ++ b) = (fs.lookup cur a).bind fun r => fs.lookup r.1 b := by
  intro a
  induction a with
  | nil =>
    intro b cur
    simp only [List.nil_append, MemFS.lookup]
    cases hn : fs.node cur with
    | some n => simp
    | none =>
      cases b with
      | nil => simp [MemFS.lookup, hn]
      | cons c cs => simp [MemFS.lookup, MemFS.isDirAt, hn]
  | cons c cs ih =>
    intro b cur
    simp only [List.cons_append, MemFS.lookup]
    split_ifs
    · exact ih b _
    · exact ih b _
    · exact ih b _
    · rfl

theorem start_congr (fs2 fs : MemFS) (path : String) (h : fs2.cwd = fs.cwd) :
    fs2.start path = fs.start path := by
  unfold MemFS.start
  rw [h]

theorem memStat_of_lookup (fs : MemFS) (path : String) (hp : path ≠ "") (r : List String) (n : Node)
    (h : fs.lookup (fs.start path) (components path) = some (r, n)) :
    Exists memSys path fs = true := by
  simp [Exists, memSys, memStat, hp, h]

theorem memSys_stat_mkdirAll (fs : MemFS) (path : String) (perm : Nat)
    (h : (memMkdirAll fs path perm).1 = none) :
    Exists memSys path (memMkdirAll fs path perm).2 = true := by
  unfold memMkdirAll at h ⊢
  by_cases hp : path = ""
  · simp [hp] at h
  · simp only [hp, if_false] at h ⊢
    obtain ⟨-, -, hc, r, n, hl⟩ := mkdirWalk_spec path (components path) fs (fs.start path) h
    apply memStat_of_lookup _ path hp r n
    rw [start_congr _ fs path hc]
    exact hl

theorem memSys_stat_writeFile (fs : MemFS) (path data : String) (perm : Nat)
    (h : (memWriteFile fs path data perm).1 = none) :
    Exists memSys path (memWriteFile fs path data perm).2 = true := by
  unfold memWriteFile at h ⊢
  by_cases hp : path = ""
  · simp [hp] at h
  · simp only [hp, if_false] at h ⊢
    cases hl : fs.lookup (fs.start path) (components path).dropLast with
    | none => simp [hl] at h
    | some dn =>
      obtain ⟨d, n⟩ := dn
      cases hg : (components path).getLast? with
      | none => simp [hl, hg] at h
      | some last =>
        simp only [hl, hg] at h ⊢
        have hcomp : (components path).dropLast ++ [last] = components path :=
          List.dropLast_append_getLast? last (by simp [hg])
        by_cases hdir : n.isDir = true
        · simp only [hdir, Bool.not_true, Bool.false_eq_true, if_false] at h ⊢
          by_cases hsp : last = "" ∨ last = "." ∨ last = ".."
          · simp [hsp] at h
          · simp only [hsp, if_false] at h ⊢
            have hne : d ++ [last] ≠ [] := by simp
            have key : fs.isDirAt (d ++ [last]) = false →
                Exists memSys path
                  (fs.set (d ++ [last]) { isDir := false, modTime := fs.now }) = true := by
              intro hnd
              have hd0 : ∀ q, fs.isDirAt q = true →
                  (fs.set (d ++ [last]) { isDir := false, modTime := fs.now }).isDirAt q = true := by
                intro q hq
                have hqe : q ≠ d ++ [last] := fun e => by rw [e, hnd] at hq; cases hq
                simp only [MemFS.isDirAt, node_set fs _ q _ hne, hqe, if_false] at hq ⊢
                exact hq
              have he0 : ∀ q, (fs.node q).isSome = true →
                  ((fs.set (d ++ [last]) { isDir := false, modTime := fs.now }).node q).isSome
                    = true := by
                intro q hq
                simp only [node_set fs _ q _ hne]
                split_ifs
                · rfl
                · exact hq
              obtain ⟨n2, hl2, hdir2⟩ := lookup_mono fs _ hd0 he0 _ _ _ _ hl
              have hnode := lookup_node _ _ _ _ _ hl2
              have hdd : (fs.set (d ++ [last]) { isDir := false, modTime := fs.now }).isDirAt d
                  = true := by
                simp only [MemFS.isDirAt, hnode]
                exact hdir2 hdir
              have hsp2 : ¬ (last = "" ∨ last = ".") := fun e => hsp (by tauto)
              have hsp3 : ¬ last = ".." := fun e => hsp (by tauto)
              apply memStat_of_lookup _ path hp (d ++ [last])
                { isDir := false, modTime := fs.now }
              have hst : (fs.set (d ++ [last]) { isDir := false, modTime := fs.now }).start path
                  = fs.start path := rfl
              rw [hst, ← hcomp, lookup_append, hl2]
              simp only [Option.some_bind, MemFS.lookup, hdd, if_true, hsp2, hsp3, if_false,
                node_set fs _ _ _ hne, Option.map_some']
            cases hm : fs.node (d ++ [last]) with
            | none =>
              simp only [hm] at h ⊢
              exact key (by simp [MemFS.isDirAt, hm])
            | some m =>
              simp only [hm] at h ⊢
              by_cases hmd : m.isDir = true
              · simp [hmd] at h
              · simp only [hmd, if_false] at h ⊢
                exact key (by simpa [MemFS.isDirAt, hm] using hmd)
        · simp [hdir] at h

/-- The in-memory filesystem keeps what `Create` relies on. -/
theorem memSys_lawful : memSys.Lawful where
  stat_mkdirAll := memSys_stat_mkdirAll
  stat_writeFile := memSys_stat_writeFile

/-! ## Create -/

/-- C10 (amended): on a system where a successful `MkdirAll` or `WriteFile`
leaves the path visible to `Stat`, for every path that does not exist
beforehand: `Create` returns nil exactly when the system calls it makes
succeed (`MkdirAll` of the path, or for a file-like path `MkdirAll` of its
parent and `WriteFile` of the path); and when it returns nil, the path exists
afterwards, and a second `Create` fails with "path already exists" and leaves
the filesystem as it is. -/
theorem create_then_exists {W : Type} (sys : Sys W) (hlaw : sys.Lawful) (P : String) (st : St W)
    (hne : Exists sys P st.world = false) :
    ((Create sys P st).1 = none ↔ createCallsSucceed sys P st.world = true) ∧
    ((Create sys P st).1 = none →
      Exists sys P (Create sys P st).2.world = true ∧
      (Create sys P (Create sys P st).2).1 = some "path already exists" ∧
      (Create sys P (Create sys P st).2).2.world = (Create sys P st).2.world) := by
  have hsecond : ∀ s : St W, Exists sys P s.world = true →
      (Create sys P s).1 = some "path already exists" ∧ (Create sys P s).2.world = s.world := by
    intro s hs
    simp [Create, hs, St.print]
  have hfirst : (Create sys P st).1 = none →
      Exists sys P (Create sys P st).2.world = true := by
    intro h
    unfold Create at h ⊢
    simp only [hne, Bool.false_eq_true, if_false] at h ⊢
    by_cases hf : LooksLikeFile sys P = true
    · simp only [hf, if_true] at h ⊢
      rcases hm : sys.mkdirAll st.world (sys.dir P) 0o755 with ⟨e1, w1⟩
      rw [hm] at h
      cases e1 with
      | some err => simp at h
      | none =>
        simp only at h ⊢
        rcases hw : sys.writeFile w1 P "" 0o644 with ⟨e2, w2⟩
        rw [hw] at h
        cases e2 with
        | some err => simp at h
        | none =>
          have := hlaw.stat_writeFile w1 P "" 0o644 (by rw [hw])
          rw [hw] at this
          exact this
    · simp only [hf, Bool.false_eq_true, if_false] at h ⊢
      rcases hm : sys.mkdirAll st.world P 0o755 with ⟨e1, w1⟩
      rw [hm] at h
      cases e1 with
      | some err => simp at h
      | none =>
        have := hlaw.stat_mkdirAll st.world P 0o755 (by rw [hm])
        rw [hm] at this
        exact this
  refine ⟨?_, fun h => ⟨hfirst h, hsecond _ (hfirst h)⟩⟩
  unfold Create createCallsSucceed
  simp only [hne, Bool.false_eq_true, if_false]
  by_cases hf : LooksLikeFile sys P = true
  · simp only [hf, if_true]
    rcases hm : sys.mkdirAll st.world (sys.dir P) 0o755 with ⟨e1, w1⟩
    cases e1 with
    | some err => simp
    | none =>
      simp only
      rcases hw : sys.writeFile w1 P "" 0o644 with ⟨e2, w2⟩
      cases e2 <;> simp
  · simp only [hf, Bool.false_eq_true, if_false]
    rcases hm : sys.mkdirAll st.world P 0o755 with ⟨e1, w1⟩
    cases e1 <;> simp

/-- Witness for C10: `a/b/notes.txt` on the empty in-memory filesystem. -/
theorem create_then_exists_witness :
    Exists memSys "a/b/notes.txt" emptyFS = false ∧
    (Create memSys "a/b/notes.txt" { world := emptyFS, out := [] }).1 = none ∧
    Exists memSys "a/b/notes.txt"
      (Create memSys "a/b/notes.txt" { world := emptyFS, out := [] }).2.world = true ∧
    (Create memSys "a/b/notes.txt"
      (Create memSys "a/b/notes.txt" { world := emptyFS, out := [] }).2).1 =
        some "path already exists" :=
  ⟨by decide,
   (create_then_exists memSys memSys_lawful "a/b/notes.txt" { world := emptyFS, out := [] }
      (by decide)).1.mpr (by decide),
   ((create_then_exists memSys memSys_lawful "a/b/notes.txt" { world := emptyFS, out := [] }
      (by decide)).2 (by decide)).1,
   ((create_then_exists memSys memSys_lawful "a/b/notes.txt" { world := emptyFS, out := [] }
      (by decide)).2 (by decide)).2.1⟩

/-- Counterexample to C10 as stated: the empty path does not exist, yet
`Create` fails on it and it does not exist afterwards; and below an existing
regular file `a`, the file-like path `a/x.txt` does not exist, yet `Create`
fails on it. -/
theorem create_counterexample :
    Exists memSys "" emptyFS = false ∧
    (Create memSys "" { world := emptyFS, out := [] }).1 =
      some "failed to create directory: mkdir : no such file or directory" ∧
    Exists memSys "" (Create memSys "" { world := emptyFS, out := [] }).2.world = false ∧
    IsFile memSys "a" (memWriteFile emptyFS "a" "" 0o644).2 = true ∧
    Exists memSys "a/x.txt" (memWriteFile emptyFS "a" "" 0o644).2 = false ∧
    LooksLikeFile memSys "a/x.txt" = true ∧
    (Create memSys "a/x.txt" { world := (memWriteFile emptyFS "a" "" 0o644).2, out := [] }).1 =
      some "failed to create parent directory: mkdir a: not a directory" := by
  decide

end Touch
